import Mathlib

/-!
Verification of the paxos-vc view-change subprotocol.

This file is a shallow embedding of the correctness-critical code of the
repository: the view-change state machine (`src/paxos.rs`) and the wire
message codec (`src/msg.rs`).  Machine integers (`u32`) are modelled as
`Nat` with explicit `% 2^32` where overflow can occur; fallible paths
(Rust `assert!`/`panic!`, `process::exit`) are modelled by an explicit
result type.  Side effects (multicasts, timer reset, the printed leader
announcement) are collected in an effect list.
-/

namespace PaxosVC

/-- `2^32`, the modulus of the `u32` view counters. -/
def U32MOD : Nat := 4294967296

/-- The wire message type (`Message` in `src/msg.rs`); `u32` fields are
`Nat` here, with well-formedness `< 2^32` tracked by `Message.WF`. -/
inductive Message where
  | ViewChange (server_id : Nat) (attempted : Nat)
  | VCProof (server_id : Nat) (installed : Nat)
deriving DecidableEq, Repr

/-- A `Message` whose fields fit in `u32`, i.e. a value constructible in
the Rust program. -/
def Message.WF : Message → Prop
  | .ViewChange sid att => sid < U32MOD ∧ att < U32MOD
  | .VCProof sid inst => sid < U32MOD ∧ inst < U32MOD

instance : DecidablePred Message.WF := fun m => by
  cases m <;> (simp only [Message.WF]; infer_instance)

/-- The fault-injection scenario (`TestCase` in `src/main.rs`). -/
inductive TestCase where
  | NormalCase
  | FullRotation
  | SingleCrash
  | TwoCrashes
  | ThreeCrashes
deriving DecidableEq, Repr

/-- The mutable protocol state of one node (`Paxos` in `src/paxos.rs`).
`numNodes` is `nodes.len()`; `view_change_state` is the `HashSet<VC>` of
received `(server_id, attempted)` pairs; the two timers carry no
protocol state beyond their firing events, modelled as operations. -/
structure Paxos where
  pid : Nat
  numNodes : Nat
  test_case : TestCase
  last_attempted_view : Nat
  current_view : Nat
  view_change_state : Finset (Nat × Nat)
deriving DecidableEq

/-- One observable side effect of a state-machine step. -/
inductive Eff where
  | send (m : Message)
  | resetProgressTimer
  | printLeader (pid leader view : Nat)
deriving DecidableEq, Repr

/-- The outcome of running one state-machine operation: a normal return
with the new state and the effects emitted, a successful process exit
(`process::exit(0)` from the test-case exit hook), or a panic (failed
`assert!`, the crash hook's `panic!`, or `% 0`). -/
inductive StepResult where
  | ok (s : Paxos) (effs : List Eff)
  | exited (s : Paxos) (effs : List Eff)
  | panicked (effs : List Eff)
deriving DecidableEq

/-- `Paxos::current_leader`, including the panic on an empty directory:
`u32::try_from(self.nodes.len())` succeeds exactly when
`numNodes < 2^32`, and then `current_view % numNodes` panics in Rust
when `numNodes = 0`. -/
def current_leader? (s : Paxos) : Option Nat :=
  if s.numNodes < U32MOD then
    if s.numNodes = 0 then none
    else some (s.current_view % s.numNodes)
  else some s.current_view

/-- `Paxos::test_case_crash_hook`: `true` when the hook panics. -/
def test_case_crash_hook_panics (s : Paxos) : Bool :=
  match s.test_case with
  | .SingleCrash => s.pid == 1
  | .TwoCrashes => s.pid < 3 && s.pid > 0
  | .ThreeCrashes => s.pid < 4 && s.pid > 0
  | _ => false

/-- `Paxos::test_case_exit_hook`: `true` when the hook calls
`process::exit(0)`.  `leader` is the value of `current_leader()` (the
hook re-reads it; the state is unchanged in between). -/
def test_case_exit_hook_exits (s : Paxos) (leader : Nat) : Bool :=
  match s.test_case with
  | .NormalCase => s.current_view == 1
  | .FullRotation => s.current_view != 0 && leader == 0
  | .SingleCrash => s.current_view == 2
  | .TwoCrashes => s.current_view == 3
  | .ThreeCrashes => s.current_view == 4

/-- `Paxos::install_view`: assert `last_attempted_view >= current_view`,
set `current_view`, print the leader line, run the exit hook, multicast
`VCProof`.  The vote set is not touched. -/
def install_view (s : Paxos) : StepResult :=
  if s.last_attempted_view ≥ s.current_view then
    match current_leader? { s with current_view := s.last_attempted_view } with
    | none => .panicked []
    | some leader =>
      if test_case_exit_hook_exits { s with current_view := s.last_attempted_view } leader then
        .exited { s with current_view := s.last_attempted_view }
          [.printLeader s.pid leader s.last_attempted_view]
      else
        .ok { s with current_view := s.last_attempted_view }
          [.printLeader s.pid leader s.last_attempted_view,
           .send (.VCProof s.pid s.last_attempted_view)]
  else .panicked []

/-- The number of recorded votes for `last_attempted_view`
(`vc_received` in `Paxos::install_view_if_possible`). -/
def quorumCount (s : Paxos) : Nat :=
  (s.view_change_state.filter (fun vc => vc.2 = s.last_attempted_view)).card

/-- `Paxos::install_view_if_possible`: install when the vote count for
`last_attempted_view` reaches `floor(N/2)+1`, consulting the crash hook
first; otherwise no state change. -/
def install_view_if_possible (s : Paxos) : StepResult :=
  if quorumCount s ≥ s.numNodes / 2 + 1 then
    if test_case_crash_hook_panics s then .panicked []
    else install_view s
  else .ok s []

/-- `Paxos::start_view_change`: assert `new_view > current_view`, clear
the vote set, set `last_attempted_view`, multicast `ViewChange`, reset
the progress timer. -/
def start_view_change (s : Paxos) (new_view : Nat) : StepResult :=
  if new_view > s.current_view then
    .ok { s with view_change_state := ∅, last_attempted_view := new_view }
      [.send (.ViewChange s.pid new_view), .resetProgressTimer]
  else .panicked []

/-- The state after `self.view_change_state.insert(VC(server_id, attempted))`. -/
def insertVote (s : Paxos) (server_id attempted : Nat) : Paxos :=
  { s with view_change_state := insert (server_id, attempted) s.view_change_state }

/-- `<Paxos as Sink<Message>>::start_send`: the message handler. -/
def start_send (s : Paxos) (msg : Message) : StepResult :=
  match msg with
  | .ViewChange server_id attempted =>
    if attempted < s.last_attempted_view then .ok s []
    else if attempted > s.last_attempted_view then start_view_change s attempted
    else install_view_if_possible (insertVote s server_id attempted)
  | .VCProof _server_id installed =>
    if installed = s.last_attempted_view ∧ installed > s.current_view then
      install_view s
    else .ok s []

/-- The progress-timer arm of `<Paxos as Stream>::poll_next`:
`start_view_change(self.last_attempted_view + 1)` with `u32` overflow. -/
def progress_timer_fires (s : Paxos) : StepResult :=
  start_view_change s ((s.last_attempted_view + 1) % U32MOD)

/-- The vc-proof-timer arm of `<Paxos as Stream>::poll_next`:
multicast `VCProof{pid, current_view}`, no state change. -/
def proof_timer_fires (s : Paxos) : StepResult :=
  .ok s [.send (.VCProof s.pid s.current_view)]

/-- The four state-machine operations. -/
inductive Op where
  | handle (m : Message)
  | progress
  | proof
deriving DecidableEq, Repr

/-- Dispatch an operation on the state. -/
def applyOp (s : Paxos) (op : Op) : StepResult :=
  match op with
  | .handle m => start_send s m
  | .progress => progress_timer_fires s
  | .proof => proof_timer_fires s

/-- Messages handed to the state machine were decoded from the wire, so
their fields fit in `u32`; timer firings carry no data. -/
def Op.WF : Op → Prop
  | .handle m => m.WF
  | _ => True

/-- `Paxos::new`: the initial state (views `0`, empty vote set). -/
def initState (pid numNodes : Nat) (tc : TestCase) : Paxos :=
  { pid := pid, numNodes := numNodes, test_case := tc,
    last_attempted_view := 0, current_view := 0, view_change_state := ∅ }

/-- States reachable from some initial state by operations that return
normally. -/
inductive Reachable : Paxos → Prop where
  | init (pid numNodes : Nat) (tc : TestCase) : Reachable (initState pid numNodes tc)
  | step (s s' : Paxos) (op : Op) (effs : List Eff) :
      Reachable s → Op.WF op → applyOp s op = .ok s' effs → Reachable s'

/-- The spec's state invariant: `last_attempted_view >= current_view`. -/
def Inv (s : Paxos) : Prop := s.current_view ≤ s.last_attempted_view

/-! Wire codec (`src/msg.rs`).

A `BytesMut` buffer is a `List Nat` of bytes.  `decode` clones the
buffer into a cursor and reads from the clone, so the original buffer
is returned unchanged alongside the result. -/

/-- The big-endian `u32` value of four bytes (`get_u32_be`). -/
def fromBE4 (b0 b1 b2 b3 : Nat) : Nat :=
  ((b0 * 256 + b1) * 256 + b2) * 256 + b3

/-- The four big-endian bytes of a `u32` (`put_u32_be`). -/
def u32be (n : Nat) : List Nat :=
  [n / 16777216 % 256, n / 65536 % 256, n / 256 % 256, n % 256]

/-- Read a big-endian `u32` from the cursor, returning it with the rest
of the cursor, or `none` when fewer than 4 bytes remain. -/
def readU32 : List Nat → Option (Nat × List Nat)
  | b0 :: b1 :: b2 :: b3 :: rest => some (fromBE4 b0 b1 b2 b3, rest)
  | _ => none

/-- The result of one decode call: a full frame, the incomplete signal
(Rust `None`), or the invalid-data error for an unrecognized tag. -/
inductive DecodeResult where
  | ok (m : Message)
  | incomplete
  | invalidData (tag : Nat)
deriving DecidableEq, Repr

/-- The read sequence of `<MessageCodec as Decoder>::decode`, operating
on the cloned cursor: check `remaining() < 4`, read the tag, dispatch on
tag `2` (ViewChange) or `3` (VCProof) with a `remaining() < 8` check,
and fail on any other tag. -/
def decodeCore (buf : List Nat) : DecodeResult :=
  if buf.length < 4 then .incomplete
  else match readU32 buf with
  | none => .incomplete
  | some (tag, rest) =>
    if tag = 2 then
      if rest.length < 8 then .incomplete
      else match readU32 rest with
      | none => .incomplete
      | some (sid, rest2) =>
        match readU32 rest2 with
        | none => .incomplete
        | some (att, _) => .ok (.ViewChange sid att)
    else if tag = 3 then
      if rest.length < 8 then .incomplete
      else match readU32 rest with
      | none => .incomplete
      | some (sid, rest2) =>
        match readU32 rest2 with
        | none => .incomplete
        | some (inst, _) => .ok (.VCProof sid inst)
    else .invalidData tag

/-- `<MessageCodec as Decoder>::decode`: reads happen on
`src.clone().into_buf()`, and `src` itself is never advanced; the pair
is (result, buffer contents after the call). -/
def decode (src : List Nat) : DecodeResult × List Nat :=
  (decodeCore src, src)

/-- `<MessageCodec as Encoder>::encode`: append the tag and the two
fields, each as 4 big-endian bytes, to `dst`. -/
def encode (msg : Message) (dst : List Nat) : List Nat :=
  match msg with
  | .ViewChange server_id attempted =>
    dst ++ u32be 2 ++ u32be server_id ++ u32be attempted
  | .VCProof server_id installed =>
    dst ++ u32be 3 ++ u32be server_id ++ u32be installed

/-- The number of distinct server indices among the recorded votes for
`last_attempted_view`. -/
def distinctVoters (s : Paxos) : Nat :=
  ((s.view_change_state.filter
      (fun vc => vc.2 = s.last_attempted_view)).image Prod.fst).card

/-- The big-endian `u32` tag of a buffer's first four bytes (`0` when
fewer than four bytes are present; only meaningful under a
`4 ≤ length` guard). -/
def wireTag : List Nat → Nat
  | b0 :: b1 :: b2 :: b3 :: _ => fromBE4 b0 b1 b2 b3
  | _ => 0

/-- A five-node state campaigning for view 1 with three recorded votes. -/
def votes3State : Paxos := { initState 0 5 .NormalCase with last_attempted_view := 1, view_change_state := {(0, 1), (1, 1), (2, 1)} }

/-- A five-node state campaigning for view 1 with two recorded votes. -/
def votes2State : Paxos := { initState 0 5 .NormalCase with last_attempted_view := 1, view_change_state := {(0, 1), (1, 1)} }

/-- A crash-flagged node one campaign ahead of its installed view. -/
def crashFlaggedState : Paxos := { initState 1 5 .SingleCrash with last_attempted_view := 1 }

/-- A stable five-node state that has installed view 1 and still holds
a quorum of votes for it. -/
def reinstallState : Paxos := { initState 0 5 .FullRotation with last_attempted_view := 1, current_view := 1, view_change_state := {(0, 1), (1, 1), (2, 1)} }

/-! Theorems. -/

/-- Reading back the four big-endian bytes of a `u32` yields the value. -/
theorem fromBE4_u32be (n : Nat) (h : n < U32MOD) :
    fromBE4 (n / 16777216 % 256) (n / 65536 % 256) (n / 256 % 256) (n % 256) = n := by
  unfold fromBE4
  unfold U32MOD at h
  omega

/-- Claim C9: decode reads from a clone of its input buffer; the buffer
contents after a call equal the contents before, on every input. -/
theorem decode_leaves_buffer_unchanged (src : List Nat) :
    (decode src).2 = src := rfl

/-- Claim C6: for every Message with `u32`-representable fields, decoding the
frame produced by encode yields exactly that message. -/
theorem decode_encode_roundtrip (m : Message) (hm : m.WF) :
    (decode (encode m [])).1 = .ok m := by
  cases m with
  | ViewChange sid att =>
    obtain ⟨h1, h2⟩ := hm
    simp only [decode, encode, u32be, List.nil_append, List.cons_append,
      List.append_nil, decodeCore, readU32, List.length_cons, List.length_nil]
    norm_num [fromBE4]
    unfold U32MOD at h1 h2
    constructor <;> omega
  | VCProof sid inst =>
    obtain ⟨h1, h2⟩ := hm
    simp only [decode, encode, u32be, List.nil_append, List.cons_append,
      List.append_nil, decodeCore, readU32, List.length_cons, List.length_nil]
    norm_num [fromBE4]
    unfold U32MOD at h1 h2
    constructor <;> omega

/-- Witness for C6 at a concrete message. -/
theorem decode_encode_roundtrip_witness :
    Message.WF (.ViewChange 7 9) ∧
      (decode (encode (.ViewChange 7 9) [])).1 = .ok (.ViewChange 7 9) :=
  ⟨by decide, decode_encode_roundtrip (.ViewChange 7 9) (by decide)⟩

/-- A buffer of at least four bytes yields a `u32` read, leaving a rest
four bytes shorter. -/
theorem readU32_of_length (l : List Nat) (h : 4 ≤ l.length) :
    ∃ v rest, readU32 l = some (v, rest) ∧ rest.length = l.length - 4 := by
  match l with
  | b0 :: b1 :: b2 :: b3 :: rest => exact ⟨fromBE4 b0 b1 b2 b3, rest, rfl, by simp⟩

/-- Reading a `u32` from an explicit four-byte prefix. -/
theorem readU32_cons (b0 b1 b2 b3 : Nat) (rest : List Nat) :
    readU32 (b0 :: b1 :: b2 :: b3 :: rest) = some (fromBE4 b0 b1 b2 b3, rest) := rfl

/-- With a recognized tag and at least 12 bytes, decode yields a message. -/
theorem decodeCore_ok_of_long (b0 b1 b2 b3 : Nat) (rest : List Nat)
    (htag : fromBE4 b0 b1 b2 b3 = 2 ∨ fromBE4 b0 b1 b2 b3 = 3)
    (hlen : 8 ≤ rest.length) :
    ∃ m, decodeCore (b0 :: b1 :: b2 :: b3 :: rest) = .ok m := by
  obtain ⟨v, rest2, hv, hlen2⟩ := readU32_of_length rest (by omega)
  obtain ⟨w, rest3, hw, _⟩ := readU32_of_length rest2 (by omega)
  have h8 : ¬ rest.length < 8 := by omega
  have h4 : ¬ rest.length + 1 + 1 + 1 + 1 < 4 := by omega
  rcases htag with h2 | h3
  · exact ⟨.ViewChange v w, by simp [decodeCore, readU32_cons, h2, h8, h4, hv, hw]⟩
  · refine ⟨.VCProof v w, ?_⟩
    by_cases he : fromBE4 b0 b1 b2 b3 = 2
    · omega
    · simp [decodeCore, readU32_cons, h3, he, h8, h4, hv, hw]

/-- Claim C7: decode signals "incomplete" exactly on a buffer shorter than 4
bytes, or one whose leading big-endian word is tag 2 or 3 but which is
shorter than 12 bytes; it signals a data-format error exactly when at
least 4 bytes are present and the leading word is neither 2 nor 3. -/
theorem decode_incomplete_error_iff (buf : List Nat) :
    ((decode buf).1 = .incomplete ↔
      buf.length < 4 ∨
        ((wireTag buf = 2 ∨ wireTag buf = 3) ∧ buf.length < 12)) ∧
    ((∃ t, (decode buf).1 = .invalidData t) ↔
      4 ≤ buf.length ∧ wireTag buf ≠ 2 ∧ wireTag buf ≠ 3) := by
  match buf with
  | [] => simp [decode, decodeCore]
  | [b0] => simp [decode, decodeCore]
  | [b0, b1] => simp [decode, decodeCore]
  | [b0, b1, b2] => simp [decode, decodeCore]
  | b0 :: b1 :: b2 :: b3 :: rest =>
    simp only [decode, wireTag, List.length_cons]
    have h4 : ¬ rest.length + 1 + 1 + 1 + 1 < 4 := by omega
    by_cases htag : fromBE4 b0 b1 b2 b3 = 2 ∨ fromBE4 b0 b1 b2 b3 = 3
    · by_cases hlen : 8 ≤ rest.length
      · obtain ⟨m, hm⟩ := decodeCore_ok_of_long b0 b1 b2 b3 rest htag hlen
        rw [hm]
        constructor
        · constructor
          · intro h; exact absurd h (by simp)
          · rintro (h | ⟨_, h⟩) <;> omega
        · constructor
          · rintro ⟨t, ht⟩; exact absurd ht (by simp)
          · rintro ⟨_, h2, h3⟩
            rcases htag with h | h
            · exact absurd h h2
            · exact absurd h h3
      · have h8 : rest.length < 8 := by omega
        have hic : decodeCore (b0 :: b1 :: b2 :: b3 :: rest) = .incomplete := by
          rcases htag with h | h
          · simp [decodeCore, readU32_cons, h, h8, h4]
          · by_cases he : fromBE4 b0 b1 b2 b3 = 2
            · simp [decodeCore, readU32_cons, he, h8, h4]
            · simp [decodeCore, readU32_cons, h, he, h8, h4]
        rw [hic]
        constructor
        · constructor
          · intro _; exact Or.inr ⟨htag, by omega⟩
          · intro _; rfl
        · constructor
          · rintro ⟨t, ht⟩; exact absurd ht (by simp)
          · rintro ⟨_, h2, h3⟩
            rcases htag with h | h
            · exact absurd h h2
            · exact absurd h h3
    · push_neg at htag
      have hid : decodeCore (b0 :: b1 :: b2 :: b3 :: rest) =
          .invalidData (fromBE4 b0 b1 b2 b3) := by
        simp [decodeCore, readU32_cons, htag.1, htag.2, h4]
      rw [hid]
      constructor
      · constructor
        · intro h; exact absurd h (by simp)
        · rintro (h | ⟨h, _⟩)
          · omega
          · rcases h with h | h
            · exact absurd h htag.1
            · exact absurd h htag.2
      · constructor
        · intro _; exact ⟨by omega, htag.1, htag.2⟩
        · intro _; exact ⟨fromBE4 b0 b1 b2 b3, rfl⟩

/-- Witness for C7: a three-byte buffer decodes to the incomplete signal. -/
theorem decode_incomplete_error_iff_witness :
    (decode [0, 0, 0]).1 = .incomplete :=
  (decode_incomplete_error_iff [0, 0, 0]).1.2 (Or.inl (by decide))

/-- Claim C10: `current_leader` is `current_view % N` with no guard: it is a
value below `N` whenever `1 ≤ N < 2^32`, it is `current_view` verbatim
when `N ≥ 2^32`, and it panics (division by zero) when `N = 0`. -/
theorem current_leader_cases (s : Paxos) :
    (1 ≤ s.numNodes → s.numNodes < U32MOD →
      current_leader? s = some (s.current_view % s.numNodes) ∧
        s.current_view % s.numNodes < s.numNodes) ∧
    (U32MOD ≤ s.numNodes → current_leader? s = some s.current_view) ∧
    (s.numNodes = 0 → current_leader? s = none) := by
  refine ⟨fun h1 h2 => ?_, fun h => ?_, fun h => ?_⟩
  · rw [current_leader?, if_pos h2, if_neg (by omega)]
    exact ⟨rfl, Nat.mod_lt _ (by omega)⟩
  · rw [current_leader?, if_neg (by omega)]
  · rw [current_leader?, if_pos (by rw [h]; exact by unfold U32MOD; omega), if_pos h]

/-- Witness for C10 at concrete states. -/
theorem current_leader_cases_witness :
    (current_leader? { initState 0 5 .NormalCase with current_view := 7 } = some 2 ∧
      (2 : Nat) < 5) ∧
    current_leader? (initState 0 0 .NormalCase) = none :=
  ⟨(current_leader_cases { initState 0 5 .NormalCase with current_view := 7 }).1
      (by decide) (by decide),
    (current_leader_cases (initState 0 0 .NormalCase)).2.2 rfl⟩

/-- Claim C5: `start_view_change` panics when `new_view ≤ current_view`, and
otherwise exactly clears the vote set, sets `last_attempted_view`,
multicasts `ViewChange{pid, new_view}`, and resets the progress timer. -/
theorem start_view_change_spec (s : Paxos) (new_view : Nat) :
    (new_view ≤ s.current_view → start_view_change s new_view = .panicked []) ∧
    (s.current_view < new_view →
      start_view_change s new_view =
        .ok { s with view_change_state := ∅, last_attempted_view := new_view }
          [.send (.ViewChange s.pid new_view), .resetProgressTimer]) := by
  refine ⟨fun h => ?_, fun h => ?_⟩
  · rw [start_view_change, if_neg (by omega)]
  · rw [start_view_change, if_pos h]

/-- Witness for C5 at a concrete state. -/
theorem start_view_change_spec_witness :
    start_view_change (initState 2 5 .NormalCase) 1 =
      .ok { initState 2 5 .NormalCase with view_change_state := ∅, last_attempted_view := 1 }
        [.send (.ViewChange 2 1), .resetProgressTimer] :=
  (start_view_change_spec (initState 2 5 .NormalCase) 1).2 (by decide)

/-- On the filtered vote set, the view component is constant, so counting
votes equals counting distinct voting server indices. -/
theorem distinctVoters_eq_quorumCount (s : Paxos) :
    distinctVoters s = quorumCount s := by
  unfold distinctVoters quorumCount
  apply Finset.card_image_of_injOn
  intro x hx y hy hxy
  rw [Finset.mem_coe, Finset.mem_filter] at hx hy
  exact Prod.ext hxy (hx.2.trans hy.2.symm)

/-- Claim C2: the quorum path installs exactly when at least `floor(N/2)+1`
distinct server indices have voted for `last_attempted_view`; with fewer
distinct voters the state (in particular `current_view`) is unchanged
and `install_view` is not reached. -/
theorem quorum_install_iff (s : Paxos) :
    (s.numNodes / 2 + 1 ≤ distinctVoters s →
      install_view_if_possible s =
        (if test_case_crash_hook_panics s then .panicked [] else install_view s)) ∧
    (distinctVoters s < s.numNodes / 2 + 1 →
      install_view_if_possible s = .ok s []) := by
  rw [distinctVoters_eq_quorumCount]
  refine ⟨fun h => ?_, fun h => ?_⟩
  · rw [install_view_if_possible, if_pos h]
  · rw [install_view_if_possible, if_neg (by omega)]

/-- Witness for C2: three distinct voters among five nodes reach quorum; two
do not. -/
theorem quorum_install_iff_witness :
    install_view_if_possible votes3State = install_view votes3State ∧
    install_view_if_possible votes2State = .ok votes2State [] := by
  constructor
  · have h := (quorum_install_iff votes3State).1 (by decide)
    rw [h]
    decide
  · exact (quorum_install_iff votes2State).2 (by decide)

/-- Recording a vote changes no field other than the vote set. -/
theorem insertVote_numNodes (s : Paxos) (a b : Nat) :
    (insertVote s a b).numNodes = s.numNodes := rfl

/-- Recording a vote leaves `last_attempted_view` unchanged. -/
theorem insertVote_last (s : Paxos) (a b : Nat) :
    (insertVote s a b).last_attempted_view = s.last_attempted_view := rfl

/-- Recording a vote leaves `current_view` unchanged. -/
theorem insertVote_current (s : Paxos) (a b : Nat) :
    (insertVote s a b).current_view = s.current_view := rfl

/-- Recording a vote leaves the node id unchanged. -/
theorem insertVote_pid (s : Paxos) (a b : Nat) :
    (insertVote s a b).pid = s.pid := rfl

/-- The crash hook reads only `pid` and `test_case`, which a vote insert
does not touch. -/
theorem crash_hook_insertVote (s : Paxos) (a b : Nat) :
    test_case_crash_hook_panics (insertVote s a b) = test_case_crash_hook_panics s := rfl

/-- The quorum check of `install_view_if_possible`, phrased via distinct
voting server indices. -/
theorem install_view_if_possible_eq (s : Paxos) :
    install_view_if_possible s =
      (if s.numNodes / 2 + 1 ≤ distinctVoters s then
        (if test_case_crash_hook_panics s then .panicked [] else install_view s)
       else .ok s []) := by
  rw [distinctVoters_eq_quorumCount]
  rfl

/-- A nonempty directory always yields a leader. -/
theorem current_leader?_isSome (s : Paxos) (h : 0 < s.numNodes) :
    ∃ leader, current_leader? s = some leader := by
  unfold current_leader?
  split
  · rw [if_neg (by omega)]
    exact ⟨_, rfl⟩
  · exact ⟨_, rfl⟩

/-- Inversion for a normally returning `install_view`. -/
theorem install_view_ok_inv (t t' : Paxos) (effs : List Eff)
    (h : install_view t = .ok t' effs) :
    t.current_view ≤ t.last_attempted_view ∧
      t' = { t with current_view := t.last_attempted_view } := by
  unfold install_view at h
  split at h
  next hle =>
    split at h
    next => cases h
    next leader heq =>
      split at h
      next => cases h
      next =>
        injection h with h1 _
        exact ⟨hle, h1.symm⟩
  next => cases h

/-- Inversion for an exiting `install_view`. -/
theorem install_view_exited_inv (t t' : Paxos) (effs : List Eff)
    (h : install_view t = .exited t' effs) :
    t.current_view ≤ t.last_attempted_view ∧
      t' = { t with current_view := t.last_attempted_view } := by
  unfold install_view at h
  split at h
  next hle =>
    split at h
    next => cases h
    next leader heq =>
      split at h
      next =>
        injection h with h1 _
        exact ⟨hle, h1.symm⟩
      next => cases h
  next => cases h

/-- Inversion for a normally returning `start_view_change`. -/
theorem start_view_change_ok_inv (t : Paxos) (v : Nat) (t' : Paxos) (effs : List Eff)
    (h : start_view_change t v = .ok t' effs) :
    t.current_view < v ∧
      t' = { t with view_change_state := ∅, last_attempted_view := v } := by
  unfold start_view_change at h
  split at h
  next hc =>
    injection h with h1 _
    exact ⟨hc, h1.symm⟩
  next => cases h

/-- Inversion for a normally returning `install_view_if_possible`: either
no quorum and no change, or the install itself returned normally. -/
theorem install_view_if_possible_ok_inv (t t' : Paxos) (effs : List Eff)
    (h : install_view_if_possible t = .ok t' effs) :
    (t' = t ∧ effs = []) ∨ install_view t = .ok t' effs := by
  unfold install_view_if_possible at h
  split at h
  · split at h
    · cases h
    · exact Or.inr h
  · injection h with h1 h2
    exact Or.inl ⟨h1.symm, h2.symm⟩

/-- Claim C3: the ViewChange handler discards stale messages unchanged, adopts
strictly higher campaigns via `start_view_change`, and for the current
campaign records the vote idempotently in the set before running the
quorum check, in which the crash hook is consulted before installing. -/
theorem view_change_handler_spec (s : Paxos) (sid att : Nat) :
    (att < s.last_attempted_view → start_send s (.ViewChange sid att) = .ok s []) ∧
    (s.last_attempted_view < att →
      start_send s (.ViewChange sid att) = start_view_change s att) ∧
    (att = s.last_attempted_view →
      start_send s (.ViewChange sid att) =
        install_view_if_possible (insertVote s sid att) ∧
      insertVote (insertVote s sid att) sid att = insertVote s sid att ∧
      distinctVoters (insertVote (insertVote s sid att) sid att) =
        distinctVoters (insertVote s sid att) ∧
      (s.numNodes / 2 + 1 ≤ distinctVoters (insertVote s sid att) →
        install_view_if_possible (insertVote s sid att) =
          (if test_case_crash_hook_panics s then .panicked []
           else install_view (insertVote s sid att)))) := by
  refine ⟨fun h => ?_, fun h => ?_, fun h => ⟨?_, ?_, ?_, fun hq => ?_⟩⟩
  · rw [start_send, if_pos h]
  · rw [start_send, if_neg (by omega), if_pos h]
  · rw [start_send, if_neg (by omega), if_neg (by omega)]
  · simp [insertVote, Finset.insert_idem]
  · simp [insertVote, Finset.insert_idem]
  · rw [install_view_if_possible_eq (insertVote s sid att), insertVote_numNodes,
      crash_hook_insertVote, if_pos hq]

/-- Witness for C3: a current-campaign ViewChange routes through the vote
insert and quorum check, and re-inserting the same vote is idempotent. -/
theorem view_change_handler_spec_witness :
    start_send votes2State (.ViewChange 2 1) =
      install_view_if_possible (insertVote votes2State 2 1) ∧
    insertVote (insertVote votes2State 2 1) 2 1 = insertVote votes2State 2 1 :=
  ⟨((view_change_handler_spec votes2State 2 1).2.2 (by decide)).1,
   ((view_change_handler_spec votes2State 2 1).2.2 (by decide)).2.1⟩

/-- Claim C4: a VCProof for exactly `last_attempted_view` that is above
`current_view` installs directly via `install_view` — a path on which
the crash hook is never consulted, so even a crash-flagged node does not
panic there — and any other VCProof leaves the state unchanged. -/
theorem vcproof_handler_spec (s : Paxos) (sid inst : Nat) :
    (inst = s.last_attempted_view → s.current_view < inst →
      start_send s (.VCProof sid inst) = install_view s) ∧
    (¬(inst = s.last_attempted_view ∧ s.current_view < inst) →
      start_send s (.VCProof sid inst) = .ok s []) ∧
    (inst = s.last_attempted_view → s.current_view < inst → 0 < s.numNodes →
      test_case_crash_hook_panics s = true →
      ∃ s' effs, start_send s (.VCProof sid inst) = .ok s' effs ∨
        start_send s (.VCProof sid inst) = .exited s' effs) := by
  refine ⟨fun h1 h2 => ?_, fun h => ?_, fun h1 h2 hN _ => ?_⟩
  · rw [start_send, if_pos ⟨h1, h2⟩]
  · rw [start_send, if_neg h]
  · rw [start_send, if_pos ⟨h1, h2⟩]
    have hle : s.current_view ≤ s.last_attempted_view := by omega
    obtain ⟨leader, hl⟩ :=
      current_leader?_isSome { s with current_view := s.last_attempted_view } hN
    rw [install_view, if_pos hle]
    simp only [hl]
    by_cases hex :
      test_case_exit_hook_exits { s with current_view := s.last_attempted_view } leader
    · rw [if_pos hex]
      exact ⟨_, _, Or.inr rfl⟩
    · rw [if_neg hex]
      exact ⟨_, _, Or.inl rfl⟩

/-- Witness for C4: a crash-flagged node takes the VCProof install path
without panicking. -/
theorem vcproof_handler_spec_witness :
    ∃ s' effs,
      start_send crashFlaggedState (.VCProof 0 1) = .ok s' effs ∨
        start_send crashFlaggedState (.VCProof 0 1) = .exited s' effs :=
  (vcproof_handler_spec crashFlaggedState 0 1).2.2 (by decide) (by decide)
    (by decide) (by decide)

/-- Any normally returning operation preserves the invariant and never
decreases `current_view`. -/
theorem step_preserves (s s' : Paxos) (op : Op) (effs : List Eff)
    (hinv : Inv s) (h : applyOp s op = .ok s' effs) :
    Inv s' ∧ s.current_view ≤ s'.current_view := by
  cases op with
  | handle m =>
    cases m with
    | ViewChange sid att =>
      rw [applyOp, start_send] at h
      split at h
      · injection h with h1 _
        rw [← h1]
        exact ⟨hinv, Nat.le_refl _⟩
      · split at h
        · obtain ⟨hlt, hs'⟩ := start_view_change_ok_inv s att s' effs h
          subst hs'
          exact ⟨Nat.le_of_lt hlt, Nat.le_refl _⟩
        · rcases install_view_if_possible_ok_inv _ _ _ h with ⟨hs', _⟩ | hok
          · subst hs'
            exact ⟨hinv, Nat.le_refl _⟩
          · obtain ⟨hle, hs'⟩ := install_view_ok_inv _ _ _ hok
            subst hs'
            exact ⟨Nat.le_refl _, hle⟩
    | VCProof sid inst =>
      rw [applyOp, start_send] at h
      split at h
      · obtain ⟨hle, hs'⟩ := install_view_ok_inv _ _ _ h
        subst hs'
        exact ⟨Nat.le_refl _, hle⟩
      · injection h with h1 _
        rw [← h1]
        exact ⟨hinv, Nat.le_refl _⟩
  | progress =>
    rw [applyOp, progress_timer_fires] at h
    obtain ⟨hlt, hs'⟩ := start_view_change_ok_inv _ _ _ _ h
    subst hs'
    exact ⟨Nat.le_of_lt hlt, Nat.le_refl _⟩
  | proof =>
    rw [applyOp, proof_timer_fires] at h
    injection h with h1 _
    rw [← h1]
    exact ⟨hinv, Nat.le_refl _⟩

/-- Claim C1: every reachable state satisfies `last_attempted_view >=
current_view`, and each of the four operations, when it returns
normally, preserves the invariant and never decreases `current_view`. -/
theorem reachable_invariant_monotone (s : Paxos) (hr : Reachable s) :
    Inv s ∧ ∀ (op : Op) (s' : Paxos) (effs : List Eff),
      applyOp s op = .ok s' effs → Inv s' ∧ s.current_view ≤ s'.current_view := by
  have hinv : Inv s := by
    induction hr with
    | init pid numNodes tc => exact Nat.le_refl 0
    | step t t' op effs hrt hwf happ ih => exact (step_preserves t t' op effs ih happ).1
  exact ⟨hinv, fun op s' effs h => step_preserves s s' op effs hinv h⟩

/-- Witness for C1: the initial state, and the state after handling one
ViewChange vote, satisfy the invariant. -/
theorem reachable_invariant_monotone_witness :
    Inv (initState 0 5 .NormalCase) ∧ Inv (insertVote (initState 0 5 .NormalCase) 1 0) :=
  ⟨(reachable_invariant_monotone _ (.init 0 5 .NormalCase)).1,
   ((reachable_invariant_monotone _ (.init 0 5 .NormalCase)).2
      (.handle (.ViewChange 1 0)) (insertVote (initState 0 5 .NormalCase) 1 0) []
      (by decide)).1⟩

/-- The exit hook reads only `test_case` and `current_view`, which a
vote insert does not touch. -/
theorem exit_hook_insertVote (s : Paxos) (a b leader : Nat) :
    test_case_exit_hook_exits (insertVote s a b) leader =
      test_case_exit_hook_exits s leader := rfl

/-- Installing at a stable state (`last_attempted_view = current_view`)
re-installs the very same state: the assert passes, the leader line is
printed again, the exit hook runs again, and the VCProof is multicast
again. -/
theorem install_view_stable (t : Paxos) (hst : t.last_attempted_view = t.current_view)
    (leader : Nat) (hl : current_leader? t = some leader) :
    install_view t =
      (if test_case_exit_hook_exits t leader then
        .exited t [.printLeader t.pid leader t.current_view]
       else .ok t [.printLeader t.pid leader t.current_view,
         .send (.VCProof t.pid t.current_view)]) := by
  have heta : ({ t with current_view := t.last_attempted_view } : Paxos) = t := by
    obtain ⟨p, n, tc, la, cu, vs⟩ := t
    rw [show la = cu from hst]
  rw [install_view, if_pos (Nat.le_of_eq hst.symm), heta]
  simp only [hl]
  rw [hst]

/-- Claim C8: installing a view never clears the vote set, so in a stable
state that already holds a quorum of votes for `current_view`, every
further ViewChange for that view re-runs the quorum check and
re-installs the same view: the crash hook is consulted again, and
absent a crash the leader line is re-printed, the exit hook re-run and
the VCProof re-multicast. -/
theorem reinstall_same_view (s : Paxos) (sid : Nat)
    (hstable : s.last_attempted_view = s.current_view)
    (hq : s.numNodes / 2 + 1 ≤ distinctVoters s)
    (hN : 0 < s.numNodes) :
    (∀ t t' effs, install_view t = .ok t' effs →
      t'.view_change_state = t.view_change_state) ∧
    (∀ t t' effs, install_view t = .exited t' effs →
      t'.view_change_state = t.view_change_state) ∧
    start_send s (.ViewChange sid s.current_view) =
      install_view_if_possible (insertVote s sid s.current_view) ∧
    s.numNodes / 2 + 1 ≤ distinctVoters (insertVote s sid s.current_view) ∧
    (test_case_crash_hook_panics s = true →
      start_send s (.ViewChange sid s.current_view) = .panicked []) ∧
    (test_case_crash_hook_panics s = false →
      ∃ leader, current_leader? s = some leader ∧
        ((test_case_exit_hook_exits s leader = true ∧
          start_send s (.ViewChange sid s.current_view) =
            .exited (insertVote s sid s.current_view)
              [.printLeader s.pid leader s.current_view]) ∨
         (test_case_exit_hook_exits s leader = false ∧
          start_send s (.ViewChange sid s.current_view) =
            .ok (insertVote s sid s.current_view)
              [.printLeader s.pid leader s.current_view,
               .send (.VCProof s.pid s.current_view)]))) := by
  have hvotes_ok : ∀ t t' effs, install_view t = .ok t' effs →
      t'.view_change_state = t.view_change_state := by
    intro t t' effs h
    obtain ⟨_, hs'⟩ := install_view_ok_inv t t' effs h
    rw [hs']
  have hvotes_ex : ∀ t t' effs, install_view t = .exited t' effs →
      t'.view_change_state = t.view_change_state := by
    intro t t' effs h
    obtain ⟨_, hs'⟩ := install_view_exited_inv t t' effs h
    rw [hs']
  have hroute : start_send s (.ViewChange sid s.current_view) =
      install_view_if_possible (insertVote s sid s.current_view) := by
    rw [start_send, if_neg (by omega), if_neg (by omega)]
  have hq1 : s.numNodes / 2 + 1 ≤ distinctVoters (insertVote s sid s.current_view) := by
    rw [distinctVoters_eq_quorumCount] at hq ⊢
    refine le_trans hq ?_
    unfold quorumCount insertVote
    exact Finset.card_le_card
      (Finset.filter_subset_filter _ (Finset.subset_insert _ _))
  refine ⟨hvotes_ok, hvotes_ex, hroute, hq1, fun hc => ?_, fun hc => ?_⟩
  · rw [hroute, install_view_if_possible_eq, insertVote_numNodes, crash_hook_insertVote,
      if_pos hq1, hc]
    rfl
  · obtain ⟨leader, hl⟩ := current_leader?_isSome s hN
    refine ⟨leader, hl, ?_⟩
    have hss : start_send s (.ViewChange sid s.current_view) =
        install_view (insertVote s sid s.current_view) := by
      rw [hroute, install_view_if_possible_eq, insertVote_numNodes, crash_hook_insertVote,
        if_pos hq1, hc]
      simp
    have hst1 : (insertVote s sid s.current_view).last_attempted_view =
        (insertVote s sid s.current_view).current_view := hstable
    have hl1 : current_leader? (insertVote s sid s.current_view) = some leader := hl
    have hinst := install_view_stable (insertVote s sid s.current_view) hst1 leader hl1
    rw [exit_hook_insertVote, insertVote_pid, insertVote_current] at hinst
    by_cases hex : test_case_exit_hook_exits s leader = true
    · exact Or.inl ⟨hex, by rw [hss, hinst, if_pos hex]⟩
    · exact Or.inr ⟨Bool.eq_false_iff.mpr hex, by rw [hss, hinst, if_neg hex]⟩

/-- Witness for C8: in the stable quorum-holding state, a repeated
ViewChange for the installed view re-enters the quorum check. -/
theorem reinstall_same_view_witness :
    start_send reinstallState (.ViewChange 3 reinstallState.current_view) =
      install_view_if_possible (insertVote reinstallState 3 reinstallState.current_view) :=
  (reinstall_same_view reinstallState 3 (by decide) (by decide) (by decide)).2.2.1

end PaxosVC
